import Mathlib

/-!
Shallow embedding of go-git-repos (src/main.go), a tool that mirrors the
GitHub repositories visible to an account into a local backup directory.
External effects (the GitHub API, git subprocesses, directory reads) are
passed in as explicit oracle functions; Go nil-pointer dereferences are
modelled by Option, with none standing for a runtime panic; the unbounded
pagination loops take an explicit fuel argument, none standing for fuel
exhaustion before the loop ended on its own.
-/

namespace GoGitRepos

/-- Errors returned by external calls (the GitHub API, git subprocesses,
directory reads).  In the source these are opaque Go error values; only
their identity matters to the control flow. -/
structure Err where
  msg : String
deriving DecidableEq

/-- Embeds the owner field of github.Repository (go-github User): Login is
a pointer field in Go, hence Option. -/
structure User where
  Login : Option String
deriving DecidableEq

/-- Embeds github.Repository restricted to the fields main.go reads: Name,
Owner and FullName, all pointer fields in Go, hence Option. -/
structure Repository where
  Name : Option String
  Owner : Option User
  FullName : Option String
deriving DecidableEq

/-- Embeds GHVars (src/main.go lines 84-89): the configuration record. -/
structure GHVars where
  Token : String
  Types : List String
  Affiliation : String
  BackupDir : String
deriving DecidableEq

/-- The inner loop of getReposToClone (src/main.go lines 196-202): linear
scan of the local names, comparing each one against the dereferenced
repository Name.  Dereferencing a nil Name is a Go panic, modelled as
none; when the local name list is empty the pointer is never
dereferenced. -/
def nameInCacheGo (files : List String) (name : Option String) : Option Bool :=
  match files with
  | [] => some false
  | fhave :: rest =>
    match name with
    | none => none
    | some n => if fhave = n then some true else nameInCacheGo rest name

/-- getReposToClone (src/main.go lines 193-208): keeps, in input order,
exactly the repositories whose Name matches no local directory entry.
The result none models a panic from a nil Name dereference. -/
def getReposToClone (files : List String) (repos : List Repository) :
    Option (List Repository) :=
  match repos with
  | [] => some []
  | repo :: rest => do
    let inCache ← nameInCacheGo files repo.Name
    let tail ← getReposToClone files rest
    pure (if inCache then tail else repo :: tail)

/-- Boolean predicate: some local entry name equals this repository name
(exact, case-sensitive string equality, as in the source). -/
def nameMatches (files : List String) (name : Option String) : Bool :=
  files.any (fun fhave => some fhave == name)

/-- A git clone invocation: the URL passed to git clone and the working
directory (cmd.Dir) it runs in (src/main.go lines 216-218). -/
structure CloneCmd where
  uri : String
  dir : String
deriving DecidableEq

/-- All three pointer fields dereferenced by the clone loop are present:
Name, Owner together with its Login, and FullName. -/
def repoFieldsPresent (r : Repository) : Bool :=
  r.Name.isSome &&
    (match r.Owner with
     | some u => u.Login.isSome
     | none => false) &&
    r.FullName.isSome

/-- The clone command src/main.go lines 216-218 build for a repository,
with missing pointer fields defaulted; it agrees with the command the
clone loop issues whenever repoFieldsPresent holds. -/
def cloneCmdD (vars : GHVars) (r : Repository) : CloneCmd :=
  { uri := "https://" ++ ((r.Owner.getD { Login := none }).Login.getD "")
      ++ ":" ++ vars.Token ++ "@github.com/" ++ r.FullName.getD ""
    dir := vars.BackupDir }

/-- cloneNonBackedupRepos (src/main.go lines 210-226): for each repository
in order, dereference Name (the progress print on line 215), Owner.Login
and FullName (the URL on line 216), run git clone in the backup directory,
and stop at the first failing clone, returning the count of repositories
completed before it.  runGit models cmd.Run: none is success, some e
failure.  The outer none models a nil-pointer panic; otherwise the result
carries the trace of clone commands issued, the processed count, and the
returned error (none after full success, matching the shadowed err
variable in the source). -/
def cloneNonBackedupRepos (runGit : CloneCmd → Option Err)
    (repos : List Repository) (vars : GHVars) :
    Option (List CloneCmd × Nat × Option Err) :=
  match repos with
  | [] => some ([], 0, none)
  | repo :: rest => do
    let _ ← repo.Name
    let owner ← repo.Owner
    let login ← owner.Login
    let full ← repo.FullName
    let cmd : CloneCmd :=
      { uri := "https://" ++ login ++ ":" ++ vars.Token ++ "@github.com/" ++ full
        dir := vars.BackupDir }
    match runGit cmd with
    | some e => some ([cmd], 0, some e)
    | none => do
      let (cmds, n, r) ← cloneNonBackedupRepos runGit rest vars
      pure (cmd :: cmds, n + 1, r)

/-- A git fetch invocation: only the working directory varies
(src/main.go lines 240-241). -/
structure FetchCmd where
  dir : String
deriving DecidableEq

/-- The per-entry loop of updateAllCachedRepos (src/main.go lines
238-247): git fetch with working directory backupDir/entry, stopping at
the first failure with the count of entries completed before it. -/
def updateLoop (runGit : FetchCmd → Option Err) (backupDir : String) :
    List String → List FetchCmd × Nat × Option Err
  | [] => ([], 0, none)
  | name :: rest =>
    let cmd : FetchCmd := { dir := backupDir ++ "/" ++ name }
    match runGit cmd with
    | some e => ([cmd], 0, some e)
    | none =>
      let (cmds, n, r) := updateLoop runGit backupDir rest
      (cmd :: cmds, n + 1, r)

/-- updateAllCachedRepos (src/main.go lines 228-248): performs its own
fresh read of the backup directory (readDir is the listing that read
returns, or the error when the read failed, in which case no fetch runs)
and then fetches every listed entry. -/
def updateAllCachedRepos (readDir : Except Err (List String))
    (runGit : FetchCmd → Option Err) (vars : GHVars) :
    List FetchCmd × Nat × Option Err :=
  match readDir with
  | .error e => ([], 0, some e)
  | .ok names => updateLoop runGit vars.BackupDir names

/-- A ListByOrg API request as built at src/main.go lines 167-174: the
client token, the organization argument, the visibility type, PerPage and
Page. -/
structure OrgRequest where
  token : String
  org : String
  tpe : String
  perPage : Nat
  page : Nat
deriving DecidableEq

/-- The pagination loop of readPersonalGithubRepos (src/main.go lines
136-156): fetch the current page, abort on error returning the
repositories accumulated so far, otherwise append the page and stop as
soon as a page comes back with zero items, else continue with the next
page.  The Nat component counts the pages fetched (API calls made). -/
def readPersonalLoop (api : Nat → Except Err (List Repository)) :
    Nat → Nat → List Repository →
      Option (List Repository × Nat × Except Err Unit)
  | 0, _, _ => none
  | fuel + 1, page, acc =>
    match api page with
    | .error e => some (acc, 1, .error e)
    | .ok repos =>
      let acc2 := acc ++ repos
      if repos.length = 0 then some (acc2, 1, .ok ())
      else
        match readPersonalLoop api fuel (page + 1) acc2 with
        | none => none
        | some (res, n, r) => some (res, n + 1, r)

/-- readPersonalGithubRepos (src/main.go lines 133-158): page size 100,
starting at page 1 with an empty accumulator. -/
def readPersonalGithubRepos (api : Nat → Except Err (List Repository))
    (fuel : Nat) : Option (List Repository × Nat × Except Err Unit) :=
  readPersonalLoop api fuel 1 []

/-- The ListByOrg request issued by src/main.go lines 167-174: the
organization argument is the literal string "UFGInsurance" (line 174),
PerPage is 100 and only the visibility type and the page vary. -/
def mkOrgRequest (tok tpe : String) (page : Nat) : OrgRequest :=
  { token := tok, org := "UFGInsurance", tpe := tpe, perPage := 100, page := page }

/-- The inner pagination loop of readOrganizationGithubRepos (src/main.go
lines 165-188) for one visibility type: each iteration issues a
ListByOrg request whose organization argument is the literal
"UFGInsurance" (line 174) with PerPage 100 and the current page.  The
request trace is accumulated alongside the repositories. -/
def readOrgPagesLoop (api : OrgRequest → Except Err (List Repository))
    (tok tpe : String) :
    Nat → Nat → List Repository → List OrgRequest →
      Option (List Repository × List OrgRequest × Except Err Unit)
  | 0, _, _, _ => none
  | fuel + 1, page, acc, reqs =>
    let req : OrgRequest := mkOrgRequest tok tpe page
    match api req with
    | .error e => some (acc, reqs ++ [req], .error e)
    | .ok repos =>
      let acc2 := acc ++ repos
      if repos.length = 0 then some (acc2, reqs ++ [req], .ok ())
      else readOrgPagesLoop api tok tpe fuel (page + 1) acc2 (reqs ++ [req])

/-- The outer loop of readOrganizationGithubRepos over vars.Types
(src/main.go line 164): paginate each configured visibility type in
order, accumulating across types; an error inside any type aborts the
whole enumeration with what was accumulated so far. -/
def readOrgTypesLoop (api : OrgRequest → Except Err (List Repository))
    (tok : String) :
    List String → List Repository → List OrgRequest → Nat →
      Option (List Repository × List OrgRequest × Except Err Unit)
  | [], acc, reqs, _ => some (acc, reqs, .ok ())
  | tpe :: rest, acc, reqs, fuel => do
    let (acc2, reqs2, r) ← readOrgPagesLoop api tok tpe fuel 1 acc reqs
    match r with
    | .error e => some (acc2, reqs2, .error e)
    | .ok _ => readOrgTypesLoop api tok rest acc2 reqs2 fuel

/-- readOrganizationGithubRepos (src/main.go lines 160-191): iterate the
configured types; the configuration contributes only the token and the
type list (the Affiliation value is not read by this function). -/
def readOrganizationGithubRepos (api : OrgRequest → Except Err (List Repository))
    (vars : GHVars) (fuel : Nat) :
    Option (List Repository × List OrgRequest × Except Err Unit) :=
  readOrgTypesLoop api vars.Token vars.Types [] [] fuel

/-- Environment model: an API serving pages of one fixed list L, page p
holding the items of L at positions (p-1)*100 up to p*100: the standard
stable paging of a repository collection of total size L.length. -/
def personalPagedAPI (L : List Repository) :
    Nat → Except Err (List Repository) :=
  fun page => .ok ((L.drop ((page - 1) * 100)).take 100)

/-- Environment model: per visibility type t the API serves pages of the
fixed list f t, honouring the page and perPage fields of each request. -/
def orgPagedAPI (f : String → List Repository) :
    OrgRequest → Except Err (List Repository) :=
  fun req => .ok (((f req.tpe).drop ((req.page - 1) * req.perPage)).take req.perPage)

/-- Environment model: pages 1 up to pages.length succeed with the listed
contents and the first page past the list fails with e. -/
def apiFromPages (pages : List (List Repository)) (e : Err) :
    Nat → Except Err (List Repository) :=
  fun page =>
    match pages.drop (page - 1) with
    | [] => .error e
    | l :: _ => .ok l

/-- Environment model combining the two: requests for type t0 are served
from pages followed by the error e, requests for any other type behave as
the arbitrary oracle g. -/
def orgApiSplit (t0 : String) (pages : List (List Repository)) (e : Err)
    (g : OrgRequest → Except Err (List Repository)) :
    OrgRequest → Except Err (List Repository) :=
  fun req => if req.tpe = t0 then apiFromPages pages e req.page else g req

/-- Which enumeration variant main invokes. -/
inductive Mode
  | personal
  | organization
deriving DecidableEq

/-- The mode selection of main (src/main.go lines 52-56): an empty
Affiliation reads the personal repositories, a non-empty one the
organization repositories; the pair records which single variant ran
together with its repositories and outcome. -/
def selectEnumeration (papi : Nat → Except Err (List Repository))
    (oapi : OrgRequest → Except Err (List Repository))
    (vars : GHVars) (fuel : Nat) :
    Mode × Option (List Repository × Except Err Unit) :=
  if vars.Affiliation = "" then
    (Mode.personal, (readPersonalGithubRepos papi fuel).map (fun r => (r.1, r.2.2)))
  else
    (Mode.organization, (readOrganizationGithubRepos oapi vars fuel).map (fun r => (r.1, r.2.2)))

/-- The phase sequencing of main from the clone decision on (src/main.go
lines 66-81): dir1 is the directory listing taken for the clone decision,
dir2 the directory state at the moment updateAllCachedRepos performs its
own fresh read, remoteRepos the enumeration result.  The value none
models a panic or the log.Fatal exit on a clone error, after which the
update phase never runs; otherwise the update phase result is returned. -/
def runBackupPipeline (dir1 dir2 : List String) (remoteRepos : List Repository)
    (runClone : CloneCmd → Option Err) (runFetch : FetchCmd → Option Err)
    (vars : GHVars) : Option (List FetchCmd × Nat × Option Err) := do
  let toClone ← getReposToClone dir1 remoteRepos
  let (_, _, cerr) ← cloneNonBackedupRepos runClone toClone vars
  match cerr with
  | some _ => none
  | none => pure (updateAllCachedRepos (Except.ok dir2) runFetch vars)

/-! ### Concrete fixtures used by witnesses -/

def repoA : Repository :=
  { Name := some "alpha", Owner := some { Login := some "owner" }, FullName := some "owner/alpha" }

def repoB : Repository :=
  { Name := some "beta", Owner := some { Login := some "owner" }, FullName := some "owner/beta" }

def repoC : Repository :=
  { Name := some "gamma", Owner := some { Login := some "owner" }, FullName := some "owner/gamma" }

def vars0 : GHVars :=
  { Token := "tok", Types := ["public", "private"], Affiliation := "", BackupDir := "/backup" }

def errE : Err := { msg := "boom" }

instance : DecidableEq (Except Err Unit) :=
  fun a b =>
    match a, b with
    | .error x, .error y =>
      if h : x = y then .isTrue (by rw [h])
      else .isFalse (by intro hc; cases hc; exact h rfl)
    | .ok x, .ok y => .isTrue (by cases x; cases y; rfl)
    | .error _, .ok _ => .isFalse (by intro hc; cases hc)
    | .ok _, .error _ => .isFalse (by intro hc; cases hc)

def fiftyRepos : List Repository := List.replicate 50 repoA

/-- A cmd.Run model that fails exactly on the clone command of repoB. -/
def runGitW : CloneCmd → Option Err :=
  fun c => if c = cloneCmdD vars0 repoB then some errE else none

def varsOrgA : GHVars :=
  { Token := "tok", Types := ["public", "private"], Affiliation := "orgA", BackupDir := "/b" }

def varsOrgB : GHVars :=
  { Token := "tok", Types := ["public", "private"], Affiliation := "orgB", BackupDir := "/b" }

/-- The organization-mode result for the one-repository-per-type API under
varsOrgA with fuel 3. -/
def outW : List Repository × List OrgRequest × Except Err Unit :=
  ([repoA, repoA],
   [mkOrgRequest "tok" "public" 1, mkOrgRequest "tok" "public" 2,
    mkOrgRequest "tok" "private" 1, mkOrgRequest "tok" "private" 2],
   .ok ())


/-! ### Helper lemmas about the set-difference computation -/

theorem nameInCacheGo_eq_nameMatches (files : List String) (name : Option String)
    (h : name.isSome) : nameInCacheGo files name = some (nameMatches files name) := by
  obtain ⟨n, rfl⟩ := Option.isSome_iff_exists.mp h
  induction files with
  | nil => simp [nameInCacheGo, nameMatches]
  | cons f rest ih =>
    by_cases hf : f = n
    · simp [nameInCacheGo, nameMatches, hf]
    · simp only [nameInCacheGo, nameMatches, List.any_cons, if_neg hf] at ih ⊢
      rw [ih]
      have : (some f == some n) = false := by simp [hf]
      rw [this]
      simp

theorem getReposToClone_eq_filter (files : List String) (repos : List Repository)
    (h : ∀ r ∈ repos, r.Name.isSome) :
    getReposToClone files repos
      = some (repos.filter (fun r => ! nameMatches files r.Name)) := by
  induction repos with
  | nil => rfl
  | cons repo rest ih =>
    have hname : repo.Name.isSome := h repo (List.mem_cons_self repo rest)
    have hrest := ih (fun r hr => h r (List.mem_cons_of_mem _ hr))
    by_cases hm : nameMatches files repo.Name <;>
      simp [getReposToClone, nameInCacheGo_eq_nameMatches files repo.Name hname,
        hrest, hm, List.filter_cons]

/-! ### Helper lemmas about the clone loop -/

theorem cloneNonBackedupRepos_cons (runGit : CloneCmd → Option Err)
    (repo : Repository) (rest : List Repository) (vars : GHVars)
    (h : repoFieldsPresent repo = true) :
    cloneNonBackedupRepos runGit (repo :: rest) vars
      = match runGit (cloneCmdD vars repo) with
        | some e => some ([cloneCmdD vars repo], 0, some e)
        | none => (cloneNonBackedupRepos runGit rest vars).map
            (fun x => (cloneCmdD vars repo :: x.1, x.2.1 + 1, x.2.2)) := by
  simp only [repoFieldsPresent, Bool.and_eq_true] at h
  obtain ⟨⟨hn, hlog⟩, hf⟩ := h
  obtain ⟨n, hn⟩ := Option.isSome_iff_exists.mp hn
  obtain ⟨f, hf⟩ := Option.isSome_iff_exists.mp hf
  cases ho : repo.Owner with
  | none => rw [ho] at hlog; simp at hlog
  | some u =>
    rw [ho] at hlog
    obtain ⟨l, hl⟩ := Option.isSome_iff_exists.mp hlog
    have hcmd : cloneCmdD vars repo =
        { uri := "https://" ++ l ++ ":" ++ vars.Token ++ "@github.com/" ++ f
          dir := vars.BackupDir } := by
      simp [cloneCmdD, ho, hl, hf]
    simp only [cloneNonBackedupRepos, hn, ho, hl, hf, Option.bind_eq_bind,
      Option.some_bind]
    rw [← hcmd]
    cases hr : runGit (cloneCmdD vars repo) with
    | some e => rfl
    | none =>
      cases hrec : cloneNonBackedupRepos runGit rest vars with
      | none => rfl
      | some x => rfl

theorem clone_stops_aux (vars : GHVars) (runGit : CloneCmd → Option Err)
    (pre : List Repository) (bad : Repository) (post : List Repository) (e : Err)
    (hpre : ∀ r ∈ pre, repoFieldsPresent r = true ∧ runGit (cloneCmdD vars r) = none)
    (hb : repoFieldsPresent bad = true) (hfail : runGit (cloneCmdD vars bad) = some e) :
    cloneNonBackedupRepos runGit (pre ++ bad :: post) vars
      = some (pre.map (cloneCmdD vars) ++ [cloneCmdD vars bad], pre.length, some e) := by
  induction pre with
  | nil =>
    rw [List.nil_append, cloneNonBackedupRepos_cons _ _ _ _ hb, hfail]
    simp
  | cons p ps ih =>
    have hp := hpre p (List.mem_cons_self p ps)
    rw [List.cons_append, cloneNonBackedupRepos_cons _ _ _ _ hp.1, hp.2,
      ih (fun r hr => hpre r (List.mem_cons_of_mem _ hr))]
    simp

theorem clone_total_aux (runGit : CloneCmd → Option Err) (vars : GHVars)
    (repos : List Repository) (h : ∀ r ∈ repos, repoFieldsPresent r = true) :
    (cloneNonBackedupRepos runGit repos vars).isSome = true := by
  induction repos with
  | nil => rfl
  | cons p ps ih =>
    rw [cloneNonBackedupRepos_cons _ _ _ _ (h p (List.mem_cons_self p ps))]
    cases hr : runGit (cloneCmdD vars p) with
    | some e => rfl
    | none =>
      have := ih (fun r hr => h r (List.mem_cons_of_mem _ hr))
      cases hrec : cloneNonBackedupRepos runGit ps vars with
      | none => rw [hrec] at this; simp at this
      | some x => rfl

/-! ### Helper lemmas about pagination -/

theorem readPersonalLoop_paged (L : List Repository) :
    ∀ (fuel page : Nat) (acc : List Repository), 1 ≤ page →
      (L.drop ((page - 1) * 100)).length + 1 ≤ fuel →
      readPersonalLoop (personalPagedAPI L) fuel page acc
        = some (acc ++ L.drop ((page - 1) * 100),
            ((L.drop ((page - 1) * 100)).length + 99) / 100 + 1, .ok ()) := by
  intro fuel
  induction fuel with
  | zero => intro page acc hp hf; omega
  | succ f ih =>
    intro page acc hp hf
    cases hrem : L.drop ((page - 1) * 100) with
    | nil =>
      simp only [readPersonalLoop, personalPagedAPI, hrem]
      norm_num
    | cons r rs =>
      have hdrop : L.drop (page * 100) = rs.drop 99 := by
        have h1 : L.drop (page * 100) = (L.drop ((page - 1) * 100)).drop 100 := by
          rw [List.drop_drop]; congr 1; omega
        rw [h1, hrem]
        rfl
      have hlenrem : (L.drop ((page - 1) * 100)).length = rs.length + 1 := by
        rw [hrem]; rfl
      have hlen2 : (L.drop ((page + 1 - 1) * 100)).length + 1 ≤ f := by
        have hidx : (page + 1 - 1) * 100 = page * 100 := by omega
        rw [hidx, hdrop, List.length_drop]
        omega
      have ih2 := ih (page + 1) (acc ++ (r :: rs).take 100) (by omega) hlen2
      have hidx : (page + 1 - 1) * 100 = page * 100 := by omega
      rw [hidx, hdrop] at ih2
      simp only [readPersonalLoop, personalPagedAPI, hrem]
      rw [if_neg (by simp [List.length_take])]
      rw [ih2]
      have hres : acc ++ (r :: rs).take 100 ++ rs.drop 99 = acc ++ (r :: rs) := by
        rw [List.append_assoc]
        congr 1
        have ht : (r :: rs).take 100 = r :: rs.take 99 := rfl
        rw [ht, List.cons_append, List.take_append_drop]
      have hcnt : ((rs.drop 99).length + 99) / 100 + 1 + 1
          = ((r :: rs).length + 99) / 100 + 1 := by
        rw [List.length_drop]
        simp only [List.length_cons]
        omega
      simp [hres, hcnt]
      omega

theorem readPersonalLoop_errors (pages : List (List Repository)) (e : Err)
    (hne : ∀ l ∈ pages, l ≠ []) :
    ∀ (fuel page : Nat) (acc : List Repository), 1 ≤ page →
      (pages.drop (page - 1)).length + 1 ≤ fuel →
      readPersonalLoop (apiFromPages pages e) fuel page acc
        = some (acc ++ (pages.drop (page - 1)).flatten,
            (pages.drop (page - 1)).length + 1, .error e) := by
  intro fuel
  induction fuel with
  | zero => intro page acc hp hf; omega
  | succ f ih =>
    intro page acc hp hf
    cases hrem : pages.drop (page - 1) with
    | nil =>
      simp only [readPersonalLoop, apiFromPages, hrem]
      simp
    | cons l ls =>
      have hl : l ≠ [] := hne l (List.mem_of_mem_drop (hrem ▸ List.mem_cons_self l ls))
      have hdrop : pages.drop page = ls := by
        have h1 : pages.drop page = (pages.drop (page - 1)).drop 1 := by
          rw [List.drop_drop]; congr 1; omega
        rw [h1, hrem]; rfl
      have hlenrem : (pages.drop (page - 1)).length = ls.length + 1 := by
        rw [hrem]; rfl
      have hlen2 : (pages.drop (page + 1 - 1)).length + 1 ≤ f := by
        have hidx : page + 1 - 1 = page := by omega
        rw [hidx, hdrop]
        omega
      have ih2 := ih (page + 1) (acc ++ l) (by omega) hlen2
      have hidx : page + 1 - 1 = page := by omega
      rw [hidx, hdrop] at ih2
      simp only [readPersonalLoop, apiFromPages, hrem]
      rw [if_neg (by simp [List.length_eq_zero, hl])]
      rw [ih2]
      simp [List.append_assoc, hlenrem]

theorem readOrgPagesLoop_paged (f : String → List Repository) (tok tpe : String) :
    ∀ (fuel page : Nat) (acc : List Repository) (reqs : List OrgRequest), 1 ≤ page →
      ((f tpe).drop ((page - 1) * 100)).length + 1 ≤ fuel →
      ∃ rs, readOrgPagesLoop (orgPagedAPI f) tok tpe fuel page acc reqs
        = some (acc ++ (f tpe).drop ((page - 1) * 100), rs, .ok ()) := by
  intro fuel
  induction fuel with
  | zero => intro page acc reqs hp hf; omega
  | succ fl ih =>
    intro page acc reqs hp hf
    cases hrem : (f tpe).drop ((page - 1) * 100) with
    | nil =>
      refine ⟨reqs ++ [mkOrgRequest tok tpe page], ?_⟩
      simp only [readOrgPagesLoop, orgPagedAPI, mkOrgRequest, hrem]
      simp [mkOrgRequest]
    | cons r rl =>
      have hdrop : (f tpe).drop (page * 100) = rl.drop 99 := by
        have h1 : (f tpe).drop (page * 100) = ((f tpe).drop ((page - 1) * 100)).drop 100 := by
          rw [List.drop_drop]; congr 1; omega
        rw [h1, hrem]
        rfl
      have hlenrem : ((f tpe).drop ((page - 1) * 100)).length = rl.length + 1 := by
        rw [hrem]; rfl
      have hidx : (page + 1 - 1) * 100 = page * 100 := by omega
      have hlen2 : ((f tpe).drop ((page + 1 - 1) * 100)).length + 1 ≤ fl := by
        rw [hidx, hdrop, List.length_drop]
        omega
      obtain ⟨rs, ih2⟩ := ih (page + 1) (acc ++ (r :: rl).take 100)
        (reqs ++ [mkOrgRequest tok tpe page]) (by omega) hlen2
      rw [hidx, hdrop] at ih2
      simp only [mkOrgRequest] at ih2
      refine ⟨rs, ?_⟩
      simp only [readOrgPagesLoop, orgPagedAPI, mkOrgRequest, hrem]
      rw [if_neg (by simp [List.length_take])]
      rw [ih2]
      have hres : acc ++ (r :: rl).take 100 ++ rl.drop 99 = acc ++ (r :: rl) := by
        rw [List.append_assoc]
        congr 1
        have ht : (r :: rl).take 100 = r :: rl.take 99 := rfl
        rw [ht, List.cons_append, List.take_append_drop]
      rw [hres]

theorem readOrgPagesLoop_errors (pages : List (List Repository)) (e : Err)
    (g : OrgRequest → Except Err (List Repository)) (t0 tok : String)
    (hne : ∀ l ∈ pages, l ≠ []) :
    ∀ (fuel page : Nat) (acc : List Repository) (reqs : List OrgRequest), 1 ≤ page →
      (pages.drop (page - 1)).length + 1 ≤ fuel →
      ∃ rs, readOrgPagesLoop (orgApiSplit t0 pages e g) tok t0 fuel page acc reqs
        = some (acc ++ (pages.drop (page - 1)).flatten, rs, .error e) := by
  intro fuel
  induction fuel with
  | zero => intro page acc reqs hp hf; omega
  | succ fl ih =>
    intro page acc reqs hp hf
    cases hrem : pages.drop (page - 1) with
    | nil =>
      refine ⟨reqs ++ [mkOrgRequest tok t0 page], ?_⟩
      simp only [readOrgPagesLoop, orgApiSplit, apiFromPages, mkOrgRequest, hrem]
      simp [mkOrgRequest]
    | cons l ls =>
      have hl : l ≠ [] := hne l (List.mem_of_mem_drop (hrem ▸ List.mem_cons_self l ls))
      have hdrop : pages.drop page = ls := by
        have h1 : pages.drop page = (pages.drop (page - 1)).drop 1 := by
          rw [List.drop_drop]; congr 1; omega
        rw [h1, hrem]; rfl
      have hlenrem : (pages.drop (page - 1)).length = ls.length + 1 := by
        rw [hrem]; rfl
      have hidx : page + 1 - 1 = page := by omega
      have hlen2 : (pages.drop (page + 1 - 1)).length + 1 ≤ fl := by
        rw [hidx, hdrop]
        omega
      obtain ⟨rs, ih2⟩ := ih (page + 1) (acc ++ l)
        (reqs ++ [mkOrgRequest tok t0 page]) (by omega) hlen2
      rw [hidx, hdrop] at ih2
      simp only [mkOrgRequest] at ih2
      refine ⟨rs, ?_⟩
      simp only [readOrgPagesLoop, orgApiSplit, apiFromPages, mkOrgRequest, hrem,
        eq_self_iff_true, if_true]
      rw [if_neg (by simp [List.length_eq_zero, hl])]
      rw [ih2]
      simp [List.append_assoc]

theorem readOrgPagesLoop_org_aux (api : OrgRequest → Except Err (List Repository))
    (tok tpe : String) :
    ∀ (fuel page : Nat) (acc : List Repository) (reqs : List OrgRequest),
      (∀ q ∈ reqs, q.org = "UFGInsurance") →
      ∀ out, readOrgPagesLoop api tok tpe fuel page acc reqs = some out →
        ∀ q ∈ out.2.1, q.org = "UFGInsurance" := by
  intro fuel
  induction fuel with
  | zero =>
    intro page acc reqs hre out hout
    exact absurd hout (by simp [readOrgPagesLoop])
  | succ fl ih =>
    intro page acc reqs hre out hout
    have hreq : ∀ q ∈ reqs ++ [mkOrgRequest tok tpe page], q.org = "UFGInsurance" := by
      intro q hq
      rcases List.mem_append.mp hq with h | h
      · exact hre q h
      · simp only [List.mem_singleton] at h
        subst h
        rfl
    simp only [readOrgPagesLoop] at hout
    split at hout
    · simp only [Option.some.injEq] at hout
      subst hout
      exact hreq
    · split at hout
      · simp only [Option.some.injEq] at hout
        subst hout
        exact hreq
      · exact ih (page + 1) _ _ hreq out hout

theorem readOrgTypesLoop_paged (f : String → List Repository) (tok : String) :
    ∀ (types : List String) (acc : List Repository) (reqs : List OrgRequest) (fuel : Nat),
      (∀ t ∈ types, (f t).length + 1 ≤ fuel) →
      ∃ rs, readOrgTypesLoop (orgPagedAPI f) tok types acc reqs fuel
        = some (acc ++ (types.map f).flatten, rs, .ok ()) := by
  intro types
  induction types with
  | nil =>
    intro acc reqs fuel h
    exact ⟨reqs, by simp [readOrgTypesLoop]⟩
  | cons t ts ih =>
    intro acc reqs fuel h
    have hb : ((f t).drop ((1 - 1) * 100)).length + 1 ≤ fuel := by
      rw [show ((1 : Nat) - 1) * 100 = 0 from rfl, List.drop_zero]
      exact h t (List.mem_cons_self t ts)
    obtain ⟨rs1, h1⟩ := readOrgPagesLoop_paged f tok t fuel 1 acc reqs (by omega) hb
    rw [show ((1 : Nat) - 1) * 100 = 0 from rfl, List.drop_zero] at h1
    obtain ⟨rs2, h2⟩ := ih (acc ++ f t) rs1 fuel (fun q hq => h q (List.mem_cons_of_mem _ hq))
    refine ⟨rs2, ?_⟩
    simp only [readOrgTypesLoop, h1, Option.bind_eq_bind, Option.some_bind]
    rw [h2]
    simp [List.append_assoc]

theorem readOrgTypesLoop_error_head (pages : List (List Repository)) (e : Err)
    (g : OrgRequest → Except Err (List Repository)) (t0 tok : String)
    (rest : List String) (acc : List Repository) (reqs : List OrgRequest) (fuel : Nat)
    (hne : ∀ l ∈ pages, l ≠ []) (hfuel : pages.length + 1 ≤ fuel) :
    ∃ rs, readOrgTypesLoop (orgApiSplit t0 pages e g) tok (t0 :: rest) acc reqs fuel
      = some (acc ++ pages.flatten, rs, .error e) := by
  obtain ⟨rs1, h1⟩ := readOrgPagesLoop_errors pages e g t0 tok hne fuel 1 acc reqs (by omega)
    (by rw [show (1 : Nat) - 1 = 0 from rfl, List.drop_zero]; exact hfuel)
  rw [show (1 : Nat) - 1 = 0 from rfl, List.drop_zero] at h1
  refine ⟨rs1, ?_⟩
  simp only [readOrgTypesLoop, h1, Option.bind_eq_bind, Option.some_bind]

theorem readOrgTypesLoop_org_aux (api : OrgRequest → Except Err (List Repository))
    (tok : String) :
    ∀ (types : List String) (acc : List Repository) (reqs : List OrgRequest) (fuel : Nat),
      (∀ q ∈ reqs, q.org = "UFGInsurance") →
      ∀ out, readOrgTypesLoop api tok types acc reqs fuel = some out →
        ∀ q ∈ out.2.1, q.org = "UFGInsurance" := by
  intro types
  induction types with
  | nil =>
    intro acc reqs fuel hre out hout
    simp only [readOrgTypesLoop, Option.some.injEq] at hout
    subst hout
    exact hre
  | cons t ts ih =>
    intro acc reqs fuel hre out hout
    simp only [readOrgTypesLoop, Option.bind_eq_bind] at hout
    cases hp : readOrgPagesLoop api tok t fuel 1 acc reqs with
    | none => rw [hp] at hout; simp at hout
    | some trip =>
      rw [hp] at hout
      simp only [Option.some_bind] at hout
      have hinner := readOrgPagesLoop_org_aux api tok t fuel 1 acc reqs hre trip hp
      obtain ⟨acc2, reqs2, r⟩ := trip
      cases r with
      | error e2 =>
        have h3 : ((acc2, reqs2, Except.error e2) :
            List Repository × List OrgRequest × Except Err Unit) = out :=
          Option.some.inj hout
        subst h3
        exact hinner
      | ok u =>
        exact ih acc2 reqs2 fuel hinner out hout

theorem updateLoop_ok (runGit : FetchCmd → Option Err) (bdir : String)
    (entries : List String) (h : ∀ c, runGit c = none) :
    updateLoop runGit bdir entries
      = (entries.map (fun n => { dir := bdir ++ "/" ++ n }), entries.length, none) := by
  induction entries with
  | nil => rfl
  | cons n rest ih =>
    simp only [updateLoop, h, ih, List.map_cons, List.length_cons]

/-! ### Claim theorems -/

/-- Claim C1: for every list of local names and every list of remote
repository records whose Name field is present (the panic-free case the
pipeline assumes), getReposToClone returns exactly the records whose name
is not an exact case-sensitive member of the local names, as a filter of
the input, hence in the same relative order and with no duplicate
introduced beyond those already in the input (the result is a sublist of
the input). -/
theorem claim_C1_getReposToClone_exact_difference (files : List String)
    (repos : List Repository) (h : ∀ r ∈ repos, r.Name.isSome) :
    getReposToClone files repos
      = some (repos.filter (fun r => ! nameMatches files r.Name))
    ∧ (repos.filter (fun r => ! nameMatches files r.Name)).Sublist repos :=
  ⟨getReposToClone_eq_filter files repos h, List.filter_sublist repos⟩

theorem claim_C1_witness :
    (∀ r ∈ [repoA, repoC], (r : Repository).Name.isSome)
    ∧ (getReposToClone ["alpha", "beta"] [repoA, repoC]
        = some ([repoA, repoC].filter (fun r => ! nameMatches ["alpha", "beta"] r.Name))
      ∧ ([repoA, repoC].filter
          (fun r => ! nameMatches ["alpha", "beta"] r.Name)).Sublist [repoA, repoC]) :=
  ⟨by decide, claim_C1_getReposToClone_exact_difference ["alpha", "beta"] [repoA, repoC] (by decide)⟩

/-- Claim C2, counterexample: with a stable total of 50 repositories the
loop fetches 2 pages (the 50-item page and the terminating empty page),
while the claimed count, ceiling of 50/100 with an extra page only for
exact multiples of 100, is 1.  The code only stops on a zero-item page, so
a final partial page does not terminate the loop. -/
theorem claim_C2_counterexample :
    (readPersonalGithubRepos (personalPagedAPI fiftyRepos) 51).map (fun r => r.2.1)
        = some 2
    ∧ ((fiftyRepos.length + 99) / 100
        + (if fiftyRepos.length % 100 = 0 then 1 else 0)) = 1
    ∧ ¬ (readPersonalGithubRepos (personalPagedAPI fiftyRepos) 51).map (fun r => r.2.1)
        = some ((fiftyRepos.length + 99) / 100
            + (if fiftyRepos.length % 100 = 0 then 1 else 0)) :=
  ⟨by decide, by decide, by decide⟩

/-- Claim C2, amended: the pagination loop terminates exactly when a page
returns zero items, and for every stable total count T the number of pages
fetched is the ceiling of T/100 plus one: the terminating empty page is
fetched for every total, not only for exact multiples of 100, because a
final partial page is nonempty and does not stop the loop. -/
theorem claim_C2_amended_page_count (L : List Repository) (fuel : Nat)
    (hfuel : L.length + 1 ≤ fuel) :
    readPersonalGithubRepos (personalPagedAPI L) fuel
      = some (L, (L.length + 99) / 100 + 1, .ok ()) := by
  have h := readPersonalLoop_paged L fuel 1 [] (by omega)
    (by rw [show ((1 : Nat) - 1) * 100 = 0 from rfl, List.drop_zero]; exact hfuel)
  rw [show ((1 : Nat) - 1) * 100 = 0 from rfl, List.drop_zero] at h
  simpa [readPersonalGithubRepos] using h

theorem claim_C2_witness :
    (List.replicate 150 repoA).length + 1 ≤ 151
    ∧ readPersonalGithubRepos (personalPagedAPI (List.replicate 150 repoA)) 151
        = some (List.replicate 150 repoA,
            ((List.replicate 150 repoA).length + 99) / 100 + 1, .ok ()) :=
  ⟨by simp, claim_C2_amended_page_count (List.replicate 150 repoA) 151 (by simp)⟩

/-- Claim C3: if every repository before some failing one clones cleanly
and the clone of that one fails with error e, the loop returns the count
of repositories processed before the failure together with e, and the
trace of issued clone commands covers exactly the earlier repositories
plus the failing one: nothing after the failure is ever attempted. -/
theorem claim_C3_clone_stops_on_first_failure (vars : GHVars)
    (runGit : CloneCmd → Option Err) (pre : List Repository) (bad : Repository)
    (post : List Repository) (e : Err)
    (hpre : ∀ r ∈ pre, repoFieldsPresent r = true ∧ runGit (cloneCmdD vars r) = none)
    (hb : repoFieldsPresent bad = true)
    (hfail : runGit (cloneCmdD vars bad) = some e) :
    cloneNonBackedupRepos runGit (pre ++ bad :: post) vars
      = some (pre.map (cloneCmdD vars) ++ [cloneCmdD vars bad], pre.length, some e) :=
  clone_stops_aux vars runGit pre bad post e hpre hb hfail

theorem claim_C3_witness :
    ((∀ r ∈ [repoA], repoFieldsPresent r = true ∧ runGitW (cloneCmdD vars0 r) = none)
      ∧ repoFieldsPresent repoB = true
      ∧ runGitW (cloneCmdD vars0 repoB) = some errE)
    ∧ cloneNonBackedupRepos runGitW ([repoA] ++ repoB :: [repoC]) vars0
        = some ([repoA].map (cloneCmdD vars0) ++ [cloneCmdD vars0 repoB], 1, some errE) :=
  ⟨⟨by decide, by decide, by decide⟩,
   claim_C3_clone_stops_on_first_failure vars0 runGitW [repoA] repoB [repoC] errE
     (by decide) (by decide) (by decide)⟩

/-- Claim C8: on an empty to-clone list the loop performs no clone
invocation (empty command trace), returns count 0 and no error. -/
theorem claim_C8_empty_clone_list (runGit : CloneCmd → Option Err) (vars : GHVars) :
    cloneNonBackedupRepos runGit [] vars = some ([], 0, none) := rfl

/-- Claim C4: in both enumeration modes, an API error on any page aborts
enumeration at once and surfaces that error together with the repositories
accumulated from the pages fetched before it.  Personal mode: an API whose
pages are the given nonempty page contents followed by an error returns
exactly their concatenation with the error.  Organization mode: with the
first configured type paging the same way, the result is that
concatenation with the error, for every choice of remaining types and of
API behaviour on them (nothing past the error is consulted). -/
theorem claim_C4_error_aborts_enumeration :
    (∀ (pages : List (List Repository)) (e : Err) (fuel : Nat),
       (∀ l ∈ pages, l ≠ []) → pages.length + 1 ≤ fuel →
       readPersonalGithubRepos (apiFromPages pages e) fuel
         = some (pages.flatten, pages.length + 1, .error e))
    ∧ (∀ (pages : List (List Repository)) (e : Err)
         (g : OrgRequest → Except Err (List Repository)) (t0 : String)
         (rest : List String) (vars : GHVars) (fuel : Nat),
       vars.Types = t0 :: rest → (∀ l ∈ pages, l ≠ []) → pages.length + 1 ≤ fuel →
       ∃ reqs, readOrganizationGithubRepos (orgApiSplit t0 pages e g) vars fuel
         = some (pages.flatten, reqs, .error e)) := by
  constructor
  · intro pages e fuel hne hfuel
    have h := readPersonalLoop_errors pages e hne fuel 1 [] (by omega)
      (by rw [show (1 : Nat) - 1 = 0 from rfl, List.drop_zero]; exact hfuel)
    rw [show (1 : Nat) - 1 = 0 from rfl, List.drop_zero] at h
    simpa [readPersonalGithubRepos] using h
  · intro pages e g t0 rest vars fuel htypes hne hfuel
    obtain ⟨rs, h⟩ :=
      readOrgTypesLoop_error_head pages e g t0 vars.Token rest [] [] fuel hne hfuel
    refine ⟨rs, ?_⟩
    rw [readOrganizationGithubRepos, htypes]
    simpa using h

theorem claim_C4_witness :
    ((∀ l ∈ [[repoA], [repoB]], l ≠ ([] : List Repository))
      ∧ ([[repoA], [repoB]] : List (List Repository)).length + 1 ≤ 5
      ∧ varsOrgA.Types = "public" :: ["private"])
    ∧ readPersonalGithubRepos (apiFromPages [[repoA], [repoB]] errE) 5
        = some ([[repoA], [repoB]].flatten, ([[repoA], [repoB]] :
            List (List Repository)).length + 1, .error errE)
    ∧ ∃ reqs, readOrganizationGithubRepos
          (orgApiSplit "public" [[repoA], [repoB]] errE (fun _ => .ok [])) varsOrgA 5
        = some ([[repoA], [repoB]].flatten, reqs, .error errE) :=
  ⟨⟨by decide, by decide, rfl⟩,
   claim_C4_error_aborts_enumeration.1 [[repoA], [repoB]] errE 5 (by decide) (by decide),
   claim_C4_error_aborts_enumeration.2 [[repoA], [repoB]] errE (fun _ => .ok [])
     "public" ["private"] varsOrgA 5 rfl (by decide) (by decide)⟩

/-- Claim C5: with a non-empty configured type list and an API that serves
each visibility type t from a fixed list f t, organization-mode
enumeration returns the concatenation of the per-type results in
configured type order, with no deduplication: the number of occurrences of
any repository in the result is the sum over the configured types of its
occurrences in that type's list, so a repository served under two distinct
types appears twice. -/
theorem claim_C5_org_concatenation (f : String → List Repository) (vars : GHVars)
    (fuel : Nat) (_hne : vars.Types ≠ [])
    (hfuel : ∀ t ∈ vars.Types, (f t).length + 1 ≤ fuel) :
    (∃ reqs, readOrganizationGithubRepos (orgPagedAPI f) vars fuel
        = some ((vars.Types.map f).flatten, reqs, .ok ()))
    ∧ ∀ r : Repository, ((vars.Types.map f).flatten).count r
        = (vars.Types.map (fun t => (f t).count r)).sum := by
  constructor
  · obtain ⟨rs, h⟩ := readOrgTypesLoop_paged f vars.Token vars.Types [] [] fuel hfuel
    refine ⟨rs, ?_⟩
    rw [readOrganizationGithubRepos]
    simpa using h
  · intro r
    rw [List.count_flatten, List.map_map]
    rfl

theorem claim_C5_witness :
    (varsOrgA.Types ≠ []
      ∧ ∀ t ∈ varsOrgA.Types, ((fun _ => [repoA]) t : List Repository).length + 1 ≤ 2)
    ∧ ((∃ reqs, readOrganizationGithubRepos (orgPagedAPI (fun _ => [repoA])) varsOrgA 2
          = some ((varsOrgA.Types.map (fun _ => [repoA])).flatten, reqs, .ok ()))
      ∧ ∀ r : Repository, ((varsOrgA.Types.map (fun _ => [repoA])).flatten).count r
          = (varsOrgA.Types.map (fun t =>
              (((fun _ => [repoA]) t : List Repository)).count r)).sum) :=
  ⟨⟨by decide, by decide⟩,
   claim_C5_org_concatenation (fun _ => [repoA]) varsOrgA 2 (by decide) (by decide)⟩

/-- Claim C6: the update phase works from its own fresh directory read.
In the pipeline model, whenever the update phase runs at all its result is
exactly updateAllCachedRepos applied to the update-time directory state
dir2, whatever listing dir1 the clone-decision phase used; and on any
directory state whose fetches all succeed, the fetch commands issued are
exactly one per entry of that fresh listing, so an entry added between the
two phases is fetched. -/
theorem claim_C6_update_fresh_read :
    (∀ (dir1 dir2 : List String) (remote : List Repository)
       (runClone : CloneCmd → Option Err) (runFetch : FetchCmd → Option Err)
       (vars : GHVars) (out : List FetchCmd × Nat × Option Err),
       runBackupPipeline dir1 dir2 remote runClone runFetch vars = some out →
       out = updateAllCachedRepos (Except.ok dir2) runFetch vars)
    ∧ (∀ (vars : GHVars) (runFetch : FetchCmd → Option Err) (entries : List String),
       (∀ c, runFetch c = none) →
       updateAllCachedRepos (Except.ok entries) runFetch vars
         = (entries.map (fun n => { dir := vars.BackupDir ++ "/" ++ n }),
            entries.length, none)) := by
  constructor
  · intro dir1 dir2 remote runClone runFetch vars out hout
    simp only [runBackupPipeline, Option.bind_eq_bind] at hout
    cases h1 : getReposToClone dir1 remote with
    | none => rw [h1] at hout; simp at hout
    | some toClone =>
      rw [h1] at hout
      simp only [Option.some_bind] at hout
      cases h2 : cloneNonBackedupRepos runClone toClone vars with
      | none => rw [h2] at hout; simp at hout
      | some trip =>
        rw [h2] at hout
        simp only [Option.some_bind] at hout
        obtain ⟨cmds, n, cerr⟩ := trip
        cases cerr with
        | some e => simp at hout
        | none => exact (Option.some.inj hout).symm
  · intro vars runFetch entries h
    simp only [updateAllCachedRepos]
    exact updateLoop_ok runFetch vars.BackupDir entries h

theorem claim_C6_witness :
    ((∀ c : FetchCmd, (fun _ : FetchCmd => (none : Option Err)) c = none)
      ∧ runBackupPipeline [] ["alpha", "fresh"] [] (fun _ => none) (fun _ => none) vars0
          = some (updateAllCachedRepos (Except.ok ["alpha", "fresh"]) (fun _ => none) vars0))
    ∧ updateAllCachedRepos (Except.ok ["alpha", "fresh"]) (fun _ => none) vars0
        = updateAllCachedRepos (Except.ok ["alpha", "fresh"]) (fun _ => none) vars0
    ∧ updateAllCachedRepos (Except.ok ["alpha", "fresh"]) (fun _ => none) vars0
        = (["alpha", "fresh"].map (fun n => { dir := vars0.BackupDir ++ "/" ++ n }),
           (["alpha", "fresh"] : List String).length, none) :=
  ⟨⟨fun _ => rfl, rfl⟩,
   claim_C6_update_fresh_read.1 [] ["alpha", "fresh"] [] (fun _ => none) (fun _ => none)
     vars0 (updateAllCachedRepos (Except.ok ["alpha", "fresh"]) (fun _ => none) vars0) rfl,
   claim_C6_update_fresh_read.2 vars0 (fun _ => none) ["alpha", "fresh"] (fun _ => rfl)⟩

/-- Claim C7: main selects personal-mode enumeration exactly when the
configured Affiliation is the empty string and organization-mode
enumeration exactly when it is non-empty; the selection result is a single
Mode value, so exactly one variant runs per invocation. -/
theorem claim_C7_mode_selection (papi : Nat → Except Err (List Repository))
    (oapi : OrgRequest → Except Err (List Repository)) (vars : GHVars) (fuel : Nat) :
    ((selectEnumeration papi oapi vars fuel).1 = Mode.personal
      ↔ vars.Affiliation = "")
    ∧ ((selectEnumeration papi oapi vars fuel).1 = Mode.organization
      ↔ vars.Affiliation ≠ "") := by
  by_cases h : vars.Affiliation = "" <;> simp [selectEnumeration, h]

/-- Claim C9: organization-mode enumeration ignores the configured
affiliation entirely: two configurations agreeing on token and type list
(whatever their affiliations) produce identical results against any API,
and every request it ever issues carries the fixed organization string
"UFGInsurance". -/
theorem claim_C9_org_hardcoded :
    (∀ (api : OrgRequest → Except Err (List Repository)) (v1 v2 : GHVars) (fuel : Nat),
       v1.Token = v2.Token → v1.Types = v2.Types →
       readOrganizationGithubRepos api v1 fuel = readOrganizationGithubRepos api v2 fuel)
    ∧ (∀ (api : OrgRequest → Except Err (List Repository)) (vars : GHVars) (fuel : Nat)
         (out : List Repository × List OrgRequest × Except Err Unit),
       readOrganizationGithubRepos api vars fuel = some out →
       ∀ req ∈ out.2.1, req.org = "UFGInsurance") := by
  constructor
  · intro api v1 v2 fuel htok htypes
    rw [readOrganizationGithubRepos, readOrganizationGithubRepos, htok, htypes]
  · intro api vars fuel out hout
    exact readOrgTypesLoop_org_aux api vars.Token vars.Types [] [] fuel (by simp) out hout

theorem claim_C9_witness :
    (varsOrgA.Token = varsOrgB.Token ∧ varsOrgA.Types = varsOrgB.Types
      ∧ readOrganizationGithubRepos (orgPagedAPI (fun _ => [repoA])) varsOrgA 3 = some outW)
    ∧ readOrganizationGithubRepos (orgPagedAPI (fun _ => [repoA])) varsOrgA 3
        = readOrganizationGithubRepos (orgPagedAPI (fun _ => [repoA])) varsOrgB 3
    ∧ ∀ req ∈ outW.2.1, req.org = "UFGInsurance" :=
  ⟨⟨rfl, rfl, by decide⟩,
   claim_C9_org_hardcoded.1 (orgPagedAPI (fun _ => [repoA])) varsOrgA varsOrgB 3 rfl rfl,
   claim_C9_org_hardcoded.2 (orgPagedAPI (fun _ => [repoA])) varsOrgA 3 outW (by decide)⟩

/-- Claim C10: getReposToClone and cloneNonBackedupRepos dereference the
Name, Owner.Login and FullName pointer fields with no nil checks; on any
input whose records all have the three fields present, both functions are
total (no modelled panic: the result is some). -/
theorem claim_C10_nonnil_precondition_total :
    (∀ (files : List String) (repos : List Repository),
       (∀ r ∈ repos, repoFieldsPresent r = true) →
       (getReposToClone files repos).isSome = true)
    ∧ (∀ (runGit : CloneCmd → Option Err) (repos : List Repository) (vars : GHVars),
       (∀ r ∈ repos, repoFieldsPresent r = true) →
       (cloneNonBackedupRepos runGit repos vars).isSome = true) := by
  constructor
  · intro files repos h
    have hn : ∀ r ∈ repos, r.Name.isSome := by
      intro r hr
      have hf := h r hr
      simp only [repoFieldsPresent, Bool.and_eq_true] at hf
      exact hf.1.1
    rw [getReposToClone_eq_filter files repos hn]
    rfl
  · intro runGit repos vars h
    exact clone_total_aux runGit vars repos h

theorem claim_C10_witness :
    (∀ r ∈ [repoA, repoB], repoFieldsPresent r = true)
    ∧ (getReposToClone ["alpha"] [repoA, repoB]).isSome = true
    ∧ (cloneNonBackedupRepos (fun _ => none) [repoA, repoB] vars0).isSome = true :=
  ⟨by decide,
   claim_C10_nonnil_precondition_total.1 ["alpha"] [repoA, repoB] (by decide),
   claim_C10_nonnil_precondition_total.2 (fun _ => none) [repoA, repoB] vars0 (by decide)⟩

end GoGitRepos
